import Mathlib

/-!
Verification of the n-gram ingestion, aggregation, checkpointing and ranking
pipeline in scripts/ngram_processor.py.

The pipeline is embedded shallowly:

* Pure helpers (is_alpha, is_clean_gram, build_shard_urls, filter_and_rank)
  are translated directly into Lean functions, keeping the source names.
* Python dicts that are built by insertion (the per-shard and per-type
  aggregate maps, which in Python preserve insertion order) are modelled as
  association lists in insertion order; defaultdict(int) access is modelled
  by aggAdd, which updates an existing key in place or appends a fresh key.
* Python ints are modelled by Int (int() accepts signed literals), and
  string splitting on a single-character separator is modelled by a
  structural split over the character list so that every definition is
  executable by the kernel.
* Effectful steps (HTTP fetch, gzip stream, Firestore reads/writes, storage
  uploads) are modelled by an environment Env of responses plus a trace of
  Event values describing each externally visible action in program order.
  A stream failure anywhere while reading a shard is modelled as the whole
  fetch returning Except.error, matching the source where any exception in
  process_shard discards the partial aggregate and returns an empty map.
  Within one run each checkpoint key is queried at most once and only
  before it is written, so a fixed store response function is an
  observationally faithful model of the external checkpoint store.
-/

namespace Ngram

/-! ## Configuration constants (source lines 24-31) -/

/-- Embedding of FREQUENCY_THRESHOLD = 5000. -/
def FREQUENCY_THRESHOLD : Int := 5000

/-- Embedding of the TOP_COUNTS dict (source lines 25-31). -/
def TOP_COUNTS : List (String × Nat) :=
  [("1gram", 30000), ("2gram", 10000), ("3gram", 10000), ("4gram", 10000), ("5gram", 10000)]

/-- Lookup TOP_COUNTS[t], as used at source line 235. -/
def topCountFor (t : String) : Nat := (TOP_COUNTS.lookup t).getD 0

/-- Embedding of the f-string f"{n}gram" used for checkpoint keys and paths. -/
def ngram_type (n : Nat) : String := toString n ++ "gram"

/-! ## Gram validation (source lines 33-39) -/

/-- Character class [a-zA-Z] from the is_alpha regex. -/
def isAsciiLetter (c : Char) : Bool :=
  ('a' ≤ c && c ≤ 'z') || ('A' ≤ c && c ≤ 'Z')

/-- Embedding of is_alpha: re.match(r given ^[a-zA-Z]+$) succeeds exactly on a
non-empty string of ASCII letters. -/
def is_alpha (word : String) : Bool :=
  !word.data.isEmpty && word.data.all isAsciiLetter

/-- Embedding of is_clean_gram (source lines 37-39). -/
def is_clean_gram (tokens : List String) : Bool :=
  decide (0 < tokens.length) && tokens.all is_alpha

/-! ## Shard catalog (source lines 41-58) -/

/-- Embedding of the letters string "abcdefghijklmnopqrstuvwxyz". -/
def letters : List Char := "abcdefghijklmnopqrstuvwxyz".data

/-- Embedding of the URL template base (source line 43). -/
def urlBase (n : Nat) : String :=
  "http://storage.googleapis.com/books/ngrams/books/googlebooks-eng-all-"
    ++ toString n ++ "gram-20120701-"

/-- Embedding of build_shard_urls: 26 single-letter shards for n = 1,
otherwise the two nested loops over letter pairs (outer i, inner j). -/
def build_shard_urls (n : Nat) : List String :=
  if n = 1 then
    letters.map (fun c => urlBase n ++ c.toString ++ ".gz")
  else
    letters.flatMap (fun i => letters.map (fun j => urlBase n ++ i.toString ++ j.toString ++ ".gz"))

/-! ## String utilities modelling the Python primitives used by the source.
These are written structurally over the character list so the kernel can
evaluate them on concrete inputs. -/

/-- Splitting on a single separator character, the semantics of Python
str.split(sep) for a one-character sep: empty pieces are kept. -/
def splitOnChar (sep : Char) : List Char → List (List Char)
  | [] => [[]]
  | c :: cs =>
    match splitOnChar sep cs with
    | [] => if c = sep then [[], []] else [[c]]
    | h :: t => if c = sep then [] :: h :: t else (c :: h) :: t

/-- String-level wrapper for splitOnChar. -/
def pySplit (sep : Char) (s : String) : List String :=
  (splitOnChar sep s.data).map String.mk

/-- Whitespace characters removed by Python str.strip() on ASCII input. -/
def isPyWhitespace (c : Char) : Bool :=
  c == ' ' || c == '\t' || c == '\n' || c == '\r' || c == '\x0b' || c == '\x0c'

/-- Embedding of line.strip() (source line 77). -/
def pyStrip (s : String) : String :=
  String.mk (((s.data.dropWhile isPyWhitespace).reverse.dropWhile isPyWhitespace).reverse)

/-- Removal of every occurrence of ".gz", the effect of
url.replace(".gz", "") at source line 193, specialised to that pattern. -/
def removeGz : List Char → List Char
  | '.' :: 'g' :: 'z' :: rest => removeGz rest
  | c :: rest => c :: removeGz rest
  | [] => []

/-- Embedding of url.split("/")[-1].replace(".gz", "") (source line 193). -/
def shardIdOf (url : String) : String :=
  String.mk (removeGz (((pySplit '/' url).getLastD "").data))

/-- Digit-run parser used by parsePyInt. -/
def parseDigits (cs : List Char) : Option Nat :=
  if cs.isEmpty then none
  else if cs.all Char.isDigit then
    some (cs.foldl (fun a c => 10 * a + (c.toNat - 48)) 0)
  else none

/-- Modelled on the Python builtin int(str) as applied to a TSV count field:
an optional sign followed by one or more decimal digits parses, anything
else raises ValueError, modelled as none. -/
def parsePyInt (s : String) : Option Int :=
  match s.data with
  | [] => none
  | c :: cs =>
    if c = '-' then (parseDigits cs).map (fun v => -(v : Int))
    else if c = '+' then (parseDigits cs).map (fun v => (v : Int))
    else (parseDigits (c :: cs)).map (fun v => (v : Int))

/-! ## Aggregate maps -/

/-- Aggregate map from gram to cumulative count, in insertion order,
modelling a Python (default)dict. -/
abbrev AggMap := List (String × Int)

/-- Lookup with default 0, the read side of defaultdict(int): the value at
the first entry whose key equals g, or 0 when the key is absent. -/
def lookup0 : AggMap → String → Int
  | [], _ => 0
  | (k, v) :: rest, g => if k = g then v else lookup0 rest g

/-- Key membership test for an aggregate map. -/
def hasKey (agg : AggMap) (g : String) : Bool := agg.any (fun p => decide (p.1 = g))

/-- Embedding of agg[gram] += match on a defaultdict(int): update the entry
in place if the key exists, otherwise append the key initialised at 0 and
then incremented, hence holding m. -/
def aggAdd (agg : AggMap) (g : String) (m : Int) : AggMap :=
  if hasKey agg g then agg.map (fun p => if p.1 = g then (p.1, p.2 + m) else p)
  else agg ++ [(g, m)]

/-! ## Per-line parsing inside process_shard (source lines 76-98) -/

/-- Embedding of the admission logic for one stripped, non-empty line
(source lines 85-98): split on tabs, require at least 3 fields, parse the
count, split the gram on spaces, check token count and cleanliness.
The returned pair is the gram together with its parsed match count; none
means the line is silently discarded. -/
def parseLine (n : Nat) (line : String) : Option (String × Int) :=
  let parts := pySplit '\t' line
  if 3 ≤ parts.length then
    match parsePyInt (parts.getD 2 "") with
    | none => none
    | some m =>
      let gram := parts.getD 0 ""
      let tokens := pySplit ' ' gram
      if tokens.length == n && is_clean_gram tokens then some (gram, m) else none
  else none

/-- Embedding of the loop body for one raw stream line: strip, skip empty
lines, then parse (source lines 76-98). -/
def parseStreamLine (n : Nat) (raw : String) : Option (String × Int) :=
  let line := pyStrip raw
  if line = "" then none else parseLine n line

/-- State update performed by one raw stream line on the shard-scope map. -/
def processStreamLine (n : Nat) (agg : AggMap) (raw : String) : AggMap :=
  match parseStreamLine n raw with
  | none => agg
  | some gm => aggAdd agg gm.1 gm.2

/-- Embedding of process_shard (source lines 60-105). The outcome argument
models the streamed, decoded shard content: Except.error stands for any
network, decompression or I/O failure anywhere during the stream, in which
case the source logs and returns an empty dict; the function is total, so
no failure propagates to the caller. -/
def process_shard (outcome : Except Unit (List String)) (n : Nat) : AggMap :=
  match outcome with
  | Except.error _ => []
  | Except.ok lines => lines.foldl (processStreamLine n) []

/-! ## Threshold + top-K selection (source lines 107-116) -/

/-- Ranked result record {"gram": g, "freq": f}. -/
structure RankedGram where
  gram : String
  freq : Int
deriving DecidableEq

/-- Threshold predicate freq >= FREQUENCY_THRESHOLD. -/
def freqPred (p : String × Int) : Bool := decide (FREQUENCY_THRESHOLD ≤ p.2)

/-- Stable insertion of one entry into a list sorted by descending count:
the new entry goes after every entry whose count is greater or equal,
before the first strictly smaller one. -/
def insertDesc (x : String × Int) : List (String × Int) → List (String × Int)
  | [] => [x]
  | y :: ys => if y.2 < x.2 then x :: y :: ys else y :: insertDesc x ys

/-- Stable descending sort by count, the semantics of Python
sorted(items, reverse=True) on (gram, freq) pairs keyed by freq: Python's
sort is stable and reverse=True preserves the original order of entries
with equal keys. -/
def sortDesc (l : List (String × Int)) : List (String × Int) :=
  l.foldl (fun acc x => insertDesc x acc) []

/-- Embedding of filter_and_rank (source lines 107-116): threshold filter
first, then stable descending sort, then take the first top_n entries.
The n argument is accepted and unused exactly as in the source. -/
def filter_and_rank (grams : AggMap) (n : Nat) (top_n : Nat) : List RankedGram :=
  let filtered := grams.filter freqPred
  let sorted_grams := sortDesc filtered
  (sorted_grams.take top_n).map (fun p => { gram := p.1, freq := p.2 })

/-! ## External environment and the event trace -/

/-- Responses of the external world during one run: store models the
Firestore checkpoint document for a key (error = connectivity failure,
ok none = document absent, ok (some s) = document present with status s);
fetch models the streamed decoded content of a shard URL. -/
structure Env where
  store : String → Except Unit (Option String)
  fetch : String → Except Unit (List String)

/-- Embedding of is_shard_done (source lines 148-157): any store failure
yields false, an absent document yields false, otherwise the status field
is compared with "done". -/
def is_shard_done (resp : Except Unit (Option String)) : Bool :=
  match resp with
  | Except.error _ => false
  | Except.ok none => false
  | Except.ok (some status) => status == "done"

/-- Externally visible actions of the orchestrator, in program order. -/
inductive Event where
  | fetchShard (url : String)
  | publishShardFiltered (n : Nat) (shardId : String) (m : AggMap)
  | publishTop (n : Nat) (rs : List RankedGram)
  | markDone (key : String) (url : String)
  | markJobComplete
  | publishWords (rs : List RankedGram)
  | publishPhrases (rs : List RankedGram)
deriving DecidableEq

/-- Checkpoint key f"{ngram_type}_{shard_id}" (source lines 138, 152, 218). -/
def checkpointKey (n : Nat) (sid : String) : String := ngram_type n ++ "_" ++ sid

/-- Embedding of the merge loop (source lines 210-212): each entry of the
shard map is added into the type aggregate in iteration order. -/
def mergeMaps (t : AggMap) (s : AggMap) : AggMap :=
  s.foldl (fun acc p => aggAdd acc p.1 p.2) t

/-- Embedding of the per-shard body of the main loop (source lines 192-231):
derive the shard id, skip entirely when the checkpoint says done, otherwise
fetch and aggregate the shard, publish the thresholded per-shard map, merge
into the type aggregate, and mark the checkpoint done. The pair carries the
type aggregate and the event trace accumulated so far. -/
def processUrl (env : Env) (n : Nat) (st : AggMap × List Event) (url : String) :
    AggMap × List Event :=
  let sid := shardIdOf url
  if is_shard_done (env.store (checkpointKey n sid)) then st
  else
    let shard_results := process_shard (env.fetch url) n
    let filtered := shard_results.filter freqPred
    (mergeMaps st.1 shard_results,
      st.2 ++ [Event.fetchShard url,
               Event.publishShardFiltered n sid filtered,
               Event.markDone (checkpointKey n sid) url])

/-- One gram order's shard loop (source lines 187-231), starting from the
fresh type aggregate. -/
def runOrder (env : Env) (n : Nat) : AggMap × List Event :=
  (build_shard_urls n).foldl (processUrl env n) ([], [])

/-- Ranked output of one gram order (source line 235). -/
def orderTop (env : Env) (n : Nat) : List RankedGram :=
  filter_and_rank (runOrder env n).1 n (topCountFor (ngram_type n))

/-- Events of one gram order: the shard loop followed by the unconditional
publish of the per-type top artifact (source lines 233-237). -/
def orderEvents (env : Env) (n : Nat) : List Event :=
  (runOrder env n).2 ++ [Event.publishTop n (orderTop env n)]

/-- Accumulator threading words_top, phrases_top_accum and the trace across
gram orders (source lines 178-246). -/
structure RunAcc where
  words : List RankedGram
  phrases : List RankedGram
  events : List Event
deriving DecidableEq

/-- Embedding of one iteration of the outer for n in range(1, 6) loop:
process the order, then route its top list into words (n = 1) or append it
to the phrases accumulator (source lines 239-243). -/
def stepOrder (env : Env) (acc : RunAcc) (n : Nat) : RunAcc :=
  { words := if n = 1 then orderTop env n else acc.words
    phrases := if n = 1 then acc.phrases else acc.phrases ++ orderTop env n
    events := acc.events ++ orderEvents env n }

/-- State after the five gram orders (source lines 183-246). -/
def runOrders (env : Env) : RunAcc :=
  [1, 2, 3, 4, 5].foldl (stepOrder env) ⟨[], [], []⟩

/-- Conditional consolidated words publish (source lines 261-262): written
only when words_top is non-empty. -/
def wordsEvents (env : Env) : List Event :=
  if (runOrders env).words.isEmpty then [] else [Event.publishWords (runOrders env).words]

/-- Conditional consolidated phrases publish (source lines 263-265). -/
def phrasesEvents (env : Env) : List Event :=
  if (runOrders env).phrases.isEmpty then [] else [Event.publishPhrases (runOrders env).phrases]

/-- Full event trace of main (source lines 159-270): the five orders, then
the job-status write (source lines 248-257), then the consolidated outputs
(source lines 259-268). -/
def mainRun (env : Env) : List Event :=
  (runOrders env).events ++ [Event.markJobComplete] ++ wordsEvents env ++ phrasesEvents env


set_option maxRecDepth 40000

lemma data_char (c : Char) : c.toString.data = [c] := rfl

lemma gz_data : (".gz" : String).data = ['.', 'g', 'z'] := rfl

/-! ## sort lemmas -/

def descBy (a b : String × Int) : Prop := b.2 ≤ a.2

lemma insertDesc_perm (x : String × Int) (l : List (String × Int)) :
    List.Perm (insertDesc x l) (x :: l) := by
  induction l with
  | nil => simp [insertDesc]
  | cons y ys ih =>
    by_cases h : y.2 < x.2
    · simp [insertDesc, h]
    · simp only [insertDesc, if_neg h]
      exact List.Perm.trans (List.Perm.cons y ih) (List.Perm.swap x y ys)

lemma insertDesc_pairwise (x : String × Int) (l : List (String × Int))
    (h : List.Pairwise descBy l) : List.Pairwise descBy (insertDesc x l) := by
  induction l with
  | nil => simp [insertDesc, descBy]
  | cons y ys ih =>
    rcases List.pairwise_cons.mp h with ⟨hy, hys⟩
    by_cases hlt : y.2 < x.2
    · simp only [insertDesc, if_pos hlt]
      refine List.pairwise_cons.mpr ⟨?_, h⟩
      intro z hz
      rcases List.mem_cons.mp hz with heq | hzz
      · exact heq ▸ le_of_lt hlt
      · exact le_trans (hy z hzz) (le_of_lt hlt)
    · simp only [insertDesc, if_neg hlt]
      refine List.pairwise_cons.mpr ⟨?_, ih hys⟩
      intro z hz
      rcases List.mem_cons.mp ((insertDesc_perm x ys).mem_iff.mp hz) with heq | hzz
      · exact heq ▸ le_of_not_lt hlt
      · exact hy z hzz

lemma insertDesc_filter_key (x : String × Int) (l : List (String × Int)) (f : Int)
    (h : List.Pairwise descBy l) :
    (insertDesc x l).filter (fun y => y.2 == f)
      = if x.2 == f then l.filter (fun y => y.2 == f) ++ [x]
        else l.filter (fun y => y.2 == f) := by
  induction l with
  | nil =>
    by_cases hx : x.2 == f <;> simp [insertDesc, List.filter_cons, hx]
  | cons y ys ih =>
    rcases List.pairwise_cons.mp h with ⟨hy, hys⟩
    by_cases hlt : y.2 < x.2
    · simp only [insertDesc, if_pos hlt]
      by_cases hx : x.2 == f
      · have hxf : x.2 = f := beq_iff_eq.mp hx
        have hnone : (y :: ys).filter (fun z => z.2 == f) = [] := by
          apply List.filter_eq_nil_iff.mpr
          intro z hz
          have hzle : z.2 ≤ y.2 := by
            rcases List.mem_cons.mp hz with heq | hz2
            · exact le_of_eq (congrArg Prod.snd heq)
            · exact hy z hz2
          have hzlt : z.2 < f := lt_of_le_of_lt hzle (hxf ▸ hlt)
          simp [Int.ne_of_lt hzlt]
        rw [List.filter_cons, if_pos (by simpa using hx), hnone]
        simp [hnone, hxf]
      · rw [List.filter_cons, if_neg (by simpa using hx)]
        simp [hx]
    · simp only [insertDesc, if_neg hlt]
      rw [List.filter_cons, List.filter_cons, ih hys]
      by_cases hx : x.2 == f <;> by_cases hy2 : y.2 == f <;> simp [hx, hy2]

lemma sortDescAux_perm (l acc : List (String × Int)) :
    List.Perm (l.foldl (fun a x => insertDesc x a) acc) (acc ++ l) := by
  induction l generalizing acc with
  | nil => simp
  | cons x xs ih =>
    simp only [List.foldl_cons]
    refine (ih (insertDesc x acc)).trans ?_
    have h1 : List.Perm (insertDesc x acc ++ xs) ((x :: acc) ++ xs) :=
      (insertDesc_perm x acc).append_right xs
    refine h1.trans ?_
    simpa using List.perm_middle.symm

lemma sortDescAux_pairwise (l acc : List (String × Int)) (h : List.Pairwise descBy acc) :
    List.Pairwise descBy (l.foldl (fun a x => insertDesc x a) acc) := by
  induction l generalizing acc with
  | nil => exact h
  | cons x xs ih =>
    simp only [List.foldl_cons]
    exact ih _ (insertDesc_pairwise x acc h)

lemma sortDescAux_filter (l acc : List (String × Int)) (f : Int)
    (h : List.Pairwise descBy acc) :
    (l.foldl (fun a x => insertDesc x a) acc).filter (fun y => y.2 == f)
      = acc.filter (fun y => y.2 == f) ++ l.filter (fun y => y.2 == f) := by
  induction l generalizing acc with
  | nil => simp
  | cons x xs ih =>
    simp only [List.foldl_cons]
    rw [ih _ (insertDesc_pairwise x acc h), insertDesc_filter_key x acc f h, List.filter_cons]
    by_cases hx : x.2 == f <;> simp [hx]

lemma sortDesc_perm (l : List (String × Int)) : List.Perm (sortDesc l) l := by
  simpa using sortDescAux_perm l []

lemma sortDesc_pairwise (l : List (String × Int)) : List.Pairwise descBy (sortDesc l) :=
  sortDescAux_pairwise l [] (by simp)

lemma sortDesc_filter_key (l : List (String × Int)) (f : Int) :
    (sortDesc l).filter (fun y => y.2 == f) = l.filter (fun y => y.2 == f) := by
  simpa using sortDescAux_filter l [] f (by simp)

/-! ## catalog lemmas -/

lemma url1_inj (n : Nat) (c c2 : Char)
    (h : urlBase n ++ c.toString ++ ".gz" = urlBase n ++ c2.toString ++ ".gz") : c = c2 := by
  have hd2 : (urlBase n).data ++ (c :: ['.', 'g', 'z'])
      = (urlBase n).data ++ (c2 :: ['.', 'g', 'z']) := by
    simpa [String.data_append, data_char, gz_data] using congrArg String.data h
  exact (List.cons_eq_cons.mp (List.append_cancel_left hd2)).1

lemma urlPair_inj (n : Nat) (i j i2 j2 : Char)
    (h : urlBase n ++ i.toString ++ j.toString ++ ".gz"
       = urlBase n ++ i2.toString ++ j2.toString ++ ".gz") : i = i2 ∧ j = j2 := by
  have hd2 : (urlBase n).data ++ (i :: j :: ['.', 'g', 'z'])
      = (urlBase n).data ++ (i2 :: j2 :: ['.', 'g', 'z']) := by
    simpa [String.data_append, data_char, gz_data] using congrArg String.data h
  have h3 := List.append_cancel_left hd2
  obtain ⟨h1, h2⟩ := List.cons_eq_cons.mp h3
  obtain ⟨h4, h5⟩ := List.cons_eq_cons.mp h2
  exact ⟨h1, h4⟩

lemma letters_nodup : letters.Nodup := by decide

lemma build_shard_urls_nodup (n : Nat) : (build_shard_urls n).Nodup := by
  by_cases h1 : n = 1
  · subst h1
    simp only [build_shard_urls, if_pos rfl]
    refine List.Nodup.map_on ?_ letters_nodup
    intro x _ y _ hxy
    exact url1_inj 1 x y hxy
  · simp only [build_shard_urls, if_neg h1]
    refine List.nodup_flatMap.mpr ⟨?_, ?_⟩
    · intro i _
      refine List.Nodup.map_on ?_ letters_nodup
      intro x _ y _ hxy
      exact (urlPair_inj n i x i y hxy).2
    · refine List.Pairwise.imp ?_ letters_nodup
      intro a b hab
      intro u hua hub
      rcases List.mem_map.mp hua with ⟨j, _, rfl⟩
      rcases List.mem_map.mp hub with ⟨j2, _, heq⟩
      exact hab ((urlPair_inj n a j b j2 heq.symm).1)

lemma build_shard_urls_length_pairs (n : Nat) (h : ¬ n = 1) :
    (build_shard_urls n).length = 676 := by
  simp only [build_shard_urls, if_neg h]
  rw [List.length_flatMap]
  simp only [Function.comp_def, List.length_map]
  decide

/-! ## orchestrator structure lemmas -/

def isShardEvent : Event → Bool
  | Event.fetchShard _ => true
  | Event.publishShardFiltered _ _ _ => true
  | Event.markDone _ _ => true
  | _ => false

def isOrderEvent : Event → Bool
  | Event.fetchShard _ => true
  | Event.publishShardFiltered _ _ _ => true
  | Event.markDone _ _ => true
  | Event.publishTop _ _ => true
  | _ => false

lemma processUrl_skip (env : Env) (n : Nat) (st : AggMap × List Event) (url : String)
    (h : is_shard_done (env.store (checkpointKey n (shardIdOf url))) = true) :
    processUrl env n st url = st := by
  simp [processUrl, h]

lemma processUrl_event_mem (env : Env) (n : Nat) (st : AggMap × List Event) (url : String)
    (e : Event) (he : e ∈ (processUrl env n st url).2) :
    e ∈ st.2 ∨ isShardEvent e = true := by
  by_cases hd : is_shard_done (env.store (checkpointKey n (shardIdOf url))) = true
  · rw [processUrl_skip env n st url hd] at he
    exact Or.inl he
  · simp only [processUrl, if_neg hd] at he
    rcases List.mem_append.mp he with h | h
    · exact Or.inl h
    · right
      rcases h with _ | ⟨_, h⟩
      · rfl
      · rcases h with _ | ⟨_, h⟩
        · rfl
        · rcases h with _ | ⟨_, h⟩
          · rfl
          · cases h

lemma foldl_event_mem (env : Env) (n : Nat) (urls : List String)
    (st : AggMap × List Event) (e : Event)
    (he : e ∈ (urls.foldl (processUrl env n) st).2) :
    e ∈ st.2 ∨ isShardEvent e = true := by
  induction urls generalizing st with
  | nil => exact Or.inl he
  | cons u us ih =>
    rcases ih (processUrl env n st u) he with h | h
    · exact processUrl_event_mem env n st u e h
    · exact Or.inr h

lemma runOrder_event_shard (env : Env) (n : Nat) (e : Event)
    (he : e ∈ (runOrder env n).2) : isShardEvent e = true := by
  rcases foldl_event_mem env n (build_shard_urls n) ([], []) e he with h | h
  · cases h
  · exact h

lemma foldl_skip_all (env : Env) (n : Nat) (urls : List String) (st : AggMap × List Event)
    (h : ∀ url ∈ urls, is_shard_done (env.store (checkpointKey n (shardIdOf url))) = true) :
    urls.foldl (processUrl env n) st = st := by
  induction urls generalizing st with
  | nil => rfl
  | cons u us ih =>
    rw [List.foldl_cons, processUrl_skip env n st u (h u (List.mem_cons_self u us))]
    exact ih st (fun v hv => h v (List.mem_cons_of_mem u hv))

lemma runOrder_skip_all (env : Env) (n : Nat)
    (h : ∀ url ∈ build_shard_urls n, is_shard_done (env.store (checkpointKey n (shardIdOf url))) = true) :
    runOrder env n = ([], []) :=
  foldl_skip_all env n (build_shard_urls n) ([], []) h

lemma runOrders_words (env : Env) : (runOrders env).words = orderTop env 1 := by
  simp [runOrders, stepOrder]

lemma runOrders_phrases (env : Env) :
    (runOrders env).phrases
      = orderTop env 2 ++ (orderTop env 3 ++ (orderTop env 4 ++ orderTop env 5)) := by
  simp [runOrders, stepOrder]

lemma runOrders_events (env : Env) :
    (runOrders env).events
      = orderEvents env 1 ++ (orderEvents env 2 ++ (orderEvents env 3
          ++ (orderEvents env 4 ++ orderEvents env 5))) := by
  simp [runOrders, stepOrder]


/-! ## aggregate map lemmas -/

lemma lookup0_map_update_other (ps : AggMap) (g g2 : String) (m : Int) (hne : g2 ≠ g) :
    lookup0 (ps.map (fun p => if p.1 = g then (p.1, p.2 + m) else p)) g2 = lookup0 ps g2 := by
  induction ps with
  | nil => rfl
  | cons q qs ih =>
    obtain ⟨k, v⟩ := q
    simp only [List.map_cons]
    by_cases hk : k = g
    · have h2 : ¬ (k = g2) := fun hh => hne (hh.symm.trans hk)
      rw [if_pos hk]
      simp [lookup0, h2, ih]
    · rw [if_neg hk]
      by_cases hg2 : k = g2
      · simp [lookup0, hg2]
      · simp [lookup0, hg2, ih]

lemma lookup0_map_update_self (ps : AggMap) (g : String) (m : Int)
    (h : hasKey ps g = true) :
    lookup0 (ps.map (fun p => if p.1 = g then (p.1, p.2 + m) else p)) g
      = lookup0 ps g + m := by
  induction ps with
  | nil => cases h
  | cons q qs ih =>
    obtain ⟨k, v⟩ := q
    simp only [List.map_cons]
    by_cases hk : k = g
    · rw [if_pos hk]
      simp [lookup0, hk]
    · rw [if_neg hk]
      simp only [hasKey, List.any_cons, Bool.or_eq_true_iff, decide_eq_true_eq] at h
      rcases h with h | h
      · exact absurd h hk
      · simp only [lookup0, if_neg hk]
        exact ih h

lemma lookup0_append_single_other (agg : AggMap) (g g2 : String) (m : Int) (h : ¬ g = g2) :
    lookup0 (agg ++ [(g, m)]) g2 = lookup0 agg g2 := by
  induction agg with
  | nil => simp [lookup0, h]
  | cons q qs ih =>
    obtain ⟨k, v⟩ := q
    by_cases hk : k = g2 <;> simp [lookup0, hk, ih]

lemma lookup0_append_single_self (agg : AggMap) (g : String) (m : Int)
    (h : hasKey agg g = false) :
    lookup0 (agg ++ [(g, m)]) g = m := by
  induction agg with
  | nil => simp [lookup0]
  | cons q qs ih =>
    obtain ⟨k, v⟩ := q
    simp only [hasKey, List.any_cons, Bool.or_eq_false_iff, decide_eq_false_iff_not] at h
    simp only [List.cons_append, lookup0, if_neg h.1]
    exact ih (by simp [hasKey, h.2])

lemma hasKey_lookup0 (agg : AggMap) (g : String) (h : hasKey agg g = false) :
    lookup0 agg g = 0 := by
  induction agg with
  | nil => rfl
  | cons q qs ih =>
    obtain ⟨k, v⟩ := q
    simp only [hasKey, List.any_cons, Bool.or_eq_false_iff, decide_eq_false_iff_not] at h
    simp only [lookup0, if_neg h.1]
    exact ih (by simp [hasKey, h.2])

lemma lookup0_aggAdd (agg : AggMap) (g g2 : String) (m : Int) :
    lookup0 (aggAdd agg g m) g2 = lookup0 agg g2 + if g2 = g then m else 0 := by
  by_cases hk : hasKey agg g = true
  · rw [aggAdd, if_pos hk]
    by_cases hg : g2 = g
    · subst hg
      rw [if_pos rfl]
      exact lookup0_map_update_self agg g2 m hk
    · rw [lookup0_map_update_other agg g g2 m hg, if_neg hg, add_zero]
  · rw [aggAdd, if_neg hk]
    rw [Bool.not_eq_true] at hk
    by_cases hg : g2 = g
    · subst hg
      rw [if_pos rfl, hasKey_lookup0 agg g2 hk, zero_add]
      exact lookup0_append_single_self agg g2 m hk
    · rw [if_neg hg, add_zero]
      exact lookup0_append_single_other agg g g2 m (fun hh => hg hh.symm)

lemma lookup0_mergeMaps_le (s t : AggMap) (g : String) (h : ∀ p ∈ s, 0 ≤ p.2) :
    lookup0 t g ≤ lookup0 (mergeMaps t s) g := by
  induction s generalizing t with
  | nil => exact le_refl _
  | cons p ps ih =>
    have step : lookup0 t g ≤ lookup0 (aggAdd t p.1 p.2) g := by
      rw [lookup0_aggAdd]
      by_cases hg : g = p.1
      · have := h p (List.mem_cons_self p ps)
        simp only [if_pos hg]
        omega
      · simp [hg]
    refine le_trans step ?_
    exact ih (aggAdd t p.1 p.2) (fun q hq => h q (List.mem_cons_of_mem p hq))

/-! ## line parsing lemmas -/

def discardLine (n : Nat) (line : String) : Prop :=
  (pySplit '\t' line).length < 3 ∨
  parsePyInt ((pySplit '\t' line).getD 2 "") = none ∨
  (pySplit ' ' ((pySplit '\t' line).getD 0 "")).length ≠ n ∨
  is_clean_gram (pySplit ' ' ((pySplit '\t' line).getD 0 "")) = false

instance (n : Nat) (line : String) : Decidable (discardLine n line) := by
  unfold discardLine
  infer_instance

lemma parseLine_eq_none_iff (n : Nat) (line : String) :
    parseLine n line = none ↔ discardLine n line := by
  simp only [parseLine, discardLine, List.getD_eq_getElem?_getD]
  by_cases h3 : 3 ≤ (pySplit '\t' line).length
  · rw [if_pos h3]
    cases hp : parsePyInt ((pySplit '\t' line)[2]?.getD "") with
    | none => simp [hp]
    | some m =>
      by_cases hlen : (pySplit ' ' ((pySplit '\t' line)[0]?.getD "")).length = n
      · by_cases hclean : is_clean_gram (pySplit ' ' ((pySplit '\t' line)[0]?.getD "")) = true
        · simp [hp, hlen, hclean, Nat.not_lt.mpr h3]
        · rw [Bool.not_eq_true] at hclean
          simp [hp, hlen, hclean]
      · simp [hp, hlen]
  · rw [if_neg h3]
    simp [Nat.lt_of_not_le h3]

lemma parseStreamLine_eq_none_iff (n : Nat) (raw : String) :
    parseStreamLine n raw = none ↔ discardLine n (pyStrip raw) := by
  simp only [parseStreamLine]
  by_cases h : pyStrip raw = ""
  · rw [if_pos h, h]
    constructor
    · intro _
      exact Or.inl (by decide)
    · intro _
      rfl
  · rw [if_neg h]
    exact parseLine_eq_none_iff n (pyStrip raw)

lemma processStreamLine_some (n : Nat) (agg : AggMap) (raw : String) (g : String) (m : Int)
    (h : parseStreamLine n raw = some (g, m)) :
    processStreamLine n agg raw = aggAdd agg g m := by
  simp [processStreamLine, h]

lemma is_alpha_iff (t : String) :
    is_alpha t = true ↔ t.data ≠ [] ∧ ∀ c ∈ t.data, isAsciiLetter c = true := by
  simp [is_alpha, List.all_eq_true]

lemma is_clean_gram_iff (tokens : List String) :
    is_clean_gram tokens = true
      ↔ tokens ≠ [] ∧ ∀ t ∈ tokens, (t.data ≠ [] ∧ ∀ c ∈ t.data, isAsciiLetter c = true) := by
  simp only [is_clean_gram, Bool.and_eq_true, decide_eq_true_eq,
    List.all_eq_true, List.length_pos]
  constructor
  · rintro ⟨h1, h2⟩
    exact ⟨h1, fun t ht => (is_alpha_iff t).mp (h2 t ht)⟩
  · rintro ⟨h1, h2⟩
    exact ⟨h1, fun t ht => (is_alpha_iff t).mpr (h2 t ht)⟩

/-! ## trace structure lemmas -/

lemma isOrderEvent_of_shard (e : Event) (h : isShardEvent e = true) : isOrderEvent e = true := by
  cases e <;> first | rfl | cases h

lemma orderEvents_class (env : Env) (n : Nat) (e : Event) (he : e ∈ orderEvents env n) :
    isOrderEvent e = true := by
  rcases List.mem_append.mp he with h | h
  · exact isOrderEvent_of_shard e (runOrder_event_shard env n e h)
  · rw [List.mem_singleton.mp h]
    rfl

lemma runOrders_event_class (env : Env) (e : Event) (he : e ∈ (runOrders env).events) :
    isOrderEvent e = true := by
  rw [runOrders_events] at he
  simp only [List.mem_append] at he
  rcases he with h | h | h | h | h <;> exact orderEvents_class env _ e h

lemma publishTop_mem_mainRun (env : Env) (n : Nat)
    (h : n = 1 ∨ n = 2 ∨ n = 3 ∨ n = 4 ∨ n = 5) :
    Event.publishTop n (orderTop env n) ∈ mainRun env := by
  have hin : Event.publishTop n (orderTop env n) ∈ (runOrders env).events := by
    rw [runOrders_events]
    have hself : Event.publishTop n (orderTop env n) ∈ orderEvents env n := by
      simp [orderEvents]
    rcases h with rfl | rfl | rfl | rfl | rfl <;> simp [hself]
  simp [mainRun, hin]

lemma mainRun_split (env : Env) :
    mainRun env
      = (runOrders env).events ++ [Event.markJobComplete]
          ++ (wordsEvents env ++ phrasesEvents env) := by
  simp [mainRun]

lemma words_mem_cases (env : Env) (rs : List RankedGram)
    (h : Event.publishWords rs ∈ mainRun env) :
    (runOrders env).words = rs ∧ (runOrders env).words ≠ [] := by
  have h1 : Event.publishWords rs ∈ (runOrders env).events ∨
      Event.publishWords rs ∈ wordsEvents env ∨
      Event.publishWords rs ∈ phrasesEvents env := by
    simpa [mainRun] using h
  rcases h1 with h2 | h2 | h2
  · exact absurd (runOrders_event_class env _ h2) (by simp [isOrderEvent])
  · by_cases hw : (runOrders env).words.isEmpty
    · rw [wordsEvents, if_pos hw] at h2
      cases h2
    · rw [wordsEvents, if_neg hw] at h2
      have h3 := List.mem_singleton.mp h2
      refine ⟨by injection h3.symm, ?_⟩
      intro hnil
      exact hw (by simp [hnil])
  · by_cases hp : (runOrders env).phrases.isEmpty
    · rw [phrasesEvents, if_pos hp] at h2
      cases h2
    · rw [phrasesEvents, if_neg hp] at h2
      cases List.mem_singleton.mp h2

lemma phrases_mem_cases (env : Env) (rs : List RankedGram)
    (h : Event.publishPhrases rs ∈ mainRun env) :
    (runOrders env).phrases = rs ∧ (runOrders env).phrases ≠ [] := by
  have h1 : Event.publishPhrases rs ∈ (runOrders env).events ∨
      Event.publishPhrases rs ∈ wordsEvents env ∨
      Event.publishPhrases rs ∈ phrasesEvents env := by
    simpa [mainRun] using h
  rcases h1 with h2 | h2 | h2
  · exact absurd (runOrders_event_class env _ h2) (by simp [isOrderEvent])
  · by_cases hw : (runOrders env).words.isEmpty
    · rw [wordsEvents, if_pos hw] at h2
      cases h2
    · rw [wordsEvents, if_neg hw] at h2
      cases List.mem_singleton.mp h2
  · by_cases hp : (runOrders env).phrases.isEmpty
    · rw [phrasesEvents, if_pos hp] at h2
      cases h2
    · rw [phrasesEvents, if_neg hp] at h2
      have h3 := List.mem_singleton.mp h2
      refine ⟨by injection h3.symm, ?_⟩
      intro hnil
      exact hp (by simp [hnil])

lemma marker_not_mem_events (env : Env) :
    Event.markJobComplete ∉ (runOrders env).events := by
  intro h
  exact absurd (runOrders_event_class env _ h) (by simp [isOrderEvent])

lemma marker_indexOf (env : Env) :
    (mainRun env).indexOf Event.markJobComplete = ((runOrders env).events).length := by
  rw [mainRun, List.append_assoc, List.append_assoc,
    List.indexOf_append_of_not_mem (marker_not_mem_events env), List.singleton_append,
    List.indexOf_cons_eq _ rfl]
  exact Nat.add_zero _

lemma words_indexOf_gt (env : Env) (rs : List RankedGram) :
    (mainRun env).indexOf Event.markJobComplete
      < (mainRun env).indexOf (Event.publishWords rs) := by
  have hnotA : Event.publishWords rs ∉ (runOrders env).events := fun h =>
    absurd (runOrders_event_class env _ h) (by simp [isOrderEvent])
  rw [marker_indexOf env, mainRun, List.append_assoc, List.append_assoc,
    List.indexOf_append_of_not_mem hnotA, List.singleton_append,
    List.indexOf_cons_ne _ (by intro hh; cases hh)]
  omega

lemma phrases_indexOf_gt (env : Env) (rs : List RankedGram) :
    (mainRun env).indexOf Event.markJobComplete
      < (mainRun env).indexOf (Event.publishPhrases rs) := by
  have hnotA : Event.publishPhrases rs ∉ (runOrders env).events := fun h =>
    absurd (runOrders_event_class env _ h) (by simp [isOrderEvent])
  rw [marker_indexOf env, mainRun, List.append_assoc, List.append_assoc,
    List.indexOf_append_of_not_mem hnotA, List.singleton_append,
    List.indexOf_cons_ne _ (by intro hh; cases hh)]
  omega

/-! ## concrete environments -/

def keyA : String := "1gram_googlebooks-eng-all-1gram-20120701-a"

def urlA : String :=
  "http://storage.googleapis.com/books/ngrams/books/googlebooks-eng-all-1gram-20120701-a.gz"

def sidA : String := "googlebooks-eng-all-1gram-20120701-a"

def envC9 : Env :=
  { store := fun key => if key = keyA then Except.ok none else Except.ok (some "done")
    fetch := fun _ => Except.ok ["cat\t1900\t6000\t1"] }

lemma envC9_done_of_head (n : Nat) (sid : String)
    (h : (checkpointKey n sid).data.head? ≠ some '1') :
    is_shard_done (envC9.store (checkpointKey n sid)) = true := by
  have hne : checkpointKey n sid ≠ keyA := fun heq => h (by rw [heq]; rfl)
  simp [envC9, if_neg hne, is_shard_done]

lemma envC9_head_two (sid : String) : (checkpointKey 2 sid).data.head? = some '2' := by
  show ((ngram_type 2 ++ "_") ++ sid).data.head? = some '2'
  rw [String.data_append]
  rfl

lemma envC9_head_three (sid : String) : (checkpointKey 3 sid).data.head? = some '3' := by
  show ((ngram_type 3 ++ "_") ++ sid).data.head? = some '3'
  rw [String.data_append]
  rfl

lemma envC9_head_four (sid : String) : (checkpointKey 4 sid).data.head? = some '4' := by
  show ((ngram_type 4 ++ "_") ++ sid).data.head? = some '4'
  rw [String.data_append]
  rfl

lemma envC9_head_five (sid : String) : (checkpointKey 5 sid).data.head? = some '5' := by
  show ((ngram_type 5 ++ "_") ++ sid).data.head? = some '5'
  rw [String.data_append]
  rfl

lemma runOrder_envC9_one :
    runOrder envC9 1
      = ([("cat", 6000)],
         [Event.fetchShard urlA,
          Event.publishShardFiltered 1 sidA [("cat", 6000)],
          Event.markDone keyA urlA]) := by decide

lemma runOrder_envC9_two : runOrder envC9 2 = ([], []) :=
  runOrder_skip_all envC9 2 (fun url _ =>
    envC9_done_of_head 2 (shardIdOf url) (by rw [envC9_head_two]; decide))

lemma runOrder_envC9_three : runOrder envC9 3 = ([], []) :=
  runOrder_skip_all envC9 3 (fun url _ =>
    envC9_done_of_head 3 (shardIdOf url) (by rw [envC9_head_three]; decide))

lemma runOrder_envC9_four : runOrder envC9 4 = ([], []) :=
  runOrder_skip_all envC9 4 (fun url _ =>
    envC9_done_of_head 4 (shardIdOf url) (by rw [envC9_head_four]; decide))

lemma runOrder_envC9_five : runOrder envC9 5 = ([], []) :=
  runOrder_skip_all envC9 5 (fun url _ =>
    envC9_done_of_head 5 (shardIdOf url) (by rw [envC9_head_five]; decide))

lemma orderTop_envC9_one : orderTop envC9 1 = [⟨"cat", 6000⟩] := by
  simp only [orderTop]
  rw [runOrder_envC9_one]
  decide

lemma orderTop_envC9_two : orderTop envC9 2 = [] := by
  simp only [orderTop]
  rw [runOrder_envC9_two]
  rfl

lemma orderTop_envC9_three : orderTop envC9 3 = [] := by
  simp only [orderTop]
  rw [runOrder_envC9_three]
  rfl

lemma orderTop_envC9_four : orderTop envC9 4 = [] := by
  simp only [orderTop]
  rw [runOrder_envC9_four]
  rfl

lemma orderTop_envC9_five : orderTop envC9 5 = [] := by
  simp only [orderTop]
  rw [runOrder_envC9_five]
  rfl

lemma mainRun_envC9 :
    mainRun envC9
      = [Event.fetchShard urlA,
         Event.publishShardFiltered 1 sidA [("cat", 6000)],
         Event.markDone keyA urlA,
         Event.publishTop 1 [⟨"cat", 6000⟩],
         Event.publishTop 2 [], Event.publishTop 3 [],
         Event.publishTop 4 [], Event.publishTop 5 [],
         Event.markJobComplete,
         Event.publishWords [⟨"cat", 6000⟩]] := by
  rw [mainRun, runOrders_events, wordsEvents, phrasesEvents, runOrders_words, runOrders_phrases]
  simp only [orderEvents, runOrder_envC9_one, runOrder_envC9_two, runOrder_envC9_three,
    runOrder_envC9_four, runOrder_envC9_five, orderTop_envC9_one, orderTop_envC9_two,
    orderTop_envC9_three, orderTop_envC9_four, orderTop_envC9_five]
  rfl

def envAllDone : Env :=
  { store := fun _ => Except.ok (some "done")
    fetch := fun _ => Except.error () }

lemma runOrder_envAllDone (n : Nat) : runOrder envAllDone n = ([], []) :=
  runOrder_skip_all envAllDone n (fun _ _ => rfl)

lemma orderTop_envAllDone (n : Nat) : orderTop envAllDone n = [] := by
  simp only [orderTop]
  rw [runOrder_envAllDone]
  simp [filter_and_rank, sortDesc]

def envFail : Env :=
  { store := fun _ => Except.ok none
    fetch := fun _ => Except.error () }

lemma key_pairs_nodup :
    (letters.flatMap (fun i => letters.map (fun j => i.toString ++ j.toString))).Nodup := by
  have inj : ∀ i j i2 j2 : Char,
      i.toString ++ j.toString = i2.toString ++ j2.toString → i = i2 ∧ j = j2 := by
    intro i j i2 j2 h
    have hd2 : ([i] ++ [j] : List Char) = [i2] ++ [j2] := by
      simpa [String.data_append, data_char] using congrArg String.data h
    simpa using hd2
  refine List.nodup_flatMap.mpr ⟨?_, ?_⟩
  · intro i _
    refine List.Nodup.map_on ?_ letters_nodup
    intro x _ y _ hxy
    exact (inj i x i y hxy).2
  · refine List.Pairwise.imp ?_ letters_nodup
    intro a b hab
    intro u hua hub
    rcases List.mem_map.mp hua with ⟨j, _, rfl⟩
    rcases List.mem_map.mp hub with ⟨j2, _, heq⟩
    exact hab ((inj a j b j2 heq.symm).1)

lemma sid_one_nodup : ((build_shard_urls 1).map shardIdOf).Nodup := by decide

lemma foldl_discarded (n : Nat) (lines : List String) :
    ∀ agg : AggMap, (∀ raw ∈ lines, parseStreamLine n raw = none) →
      lines.foldl (processStreamLine n) agg = agg := by
  induction lines with
  | nil =>
    intro agg _
    rfl
  | cons x xs ih =>
    intro agg h
    rw [List.foldl_cons]
    have hx : processStreamLine n agg x = agg := by
      simp [processStreamLine, h x (List.mem_cons_self x xs)]
    rw [hx]
    exact ih agg (fun raw hr => h raw (List.mem_cons_of_mem x hr))

/-! ## Claim theorems -/

/-- C1, counterexample. The claim states that when processing a shard's
stream fails, the orchestrator does not mark that shard's checkpoint done,
so a future run retries it. This is false on the code: process_shard
swallows every stream failure and returns an empty map, and the main loop
then writes the checkpoint unconditionally, so the markDone write happens
even when the fetch failed. -/
theorem c1_counterexample :
    ¬ (∀ (env : Env) (n : Nat) (st : AggMap × List Event) (url : String),
        env.fetch url = Except.error () →
        Event.markDone (checkpointKey n (shardIdOf url)) url ∉ (processUrl env n st url).2) := by
  intro h
  exact h envFail 1 ([], []) urlA rfl (by decide)

/-- C1, amended. Whenever a shard is not skipped by the checkpoint check,
the orchestrator marks its checkpoint done, even when the shard's stream
failed; a failed shard therefore contributes nothing to the aggregate but
is still checkpointed, and a future run will not retry it. -/
theorem c1_amended (env : Env) (n : Nat) (st : AggMap × List Event) (url : String)
    (hskip : is_shard_done (env.store (checkpointKey n (shardIdOf url))) = false) :
    Event.markDone (checkpointKey n (shardIdOf url)) url ∈ (processUrl env n st url).2 ∧
    (env.fetch url = Except.error () → (processUrl env n st url).1 = st.1) := by
  constructor
  · simp [processUrl, hskip]
  · intro hf
    simp [processUrl, hskip, hf, process_shard, mergeMaps]

/-- C1 witness: a concrete failed shard is still marked done. -/
theorem c1_amended_witness :
    Event.markDone (checkpointKey 1 (shardIdOf urlA)) urlA
      ∈ (processUrl envFail 1 ([], []) urlA).2 :=
  (c1_amended envFail 1 ([], []) urlA (by decide)).1

/-- C2. filter_and_rank applies the frequency >= 5000 filter strictly before
top-K selection: the result is exactly the first k entries of the stable
descending sort of the filtered map, mapped to gram and freq records. The
filter retains exactly the entries at or above the threshold; the sort is a
permutation of the filtered entries, is sorted by non-increasing frequency,
and is stable (entries of each equal frequency keep the filtered map's
iteration order); the result length is min k (number of survivors), so when
fewer than k survive all of them are returned; every returned entry meets
the threshold; and the cap is 30000 for order 1 and 10000 for orders 2-5. -/
theorem c2_filter_and_rank (grams : AggMap) (n k : Nat) :
    filter_and_rank grams n k
        = ((sortDesc (grams.filter freqPred)).take k).map
            (fun p => { gram := p.1, freq := p.2 }) ∧
    (∀ p, p ∈ grams.filter freqPred ↔ p ∈ grams ∧ FREQUENCY_THRESHOLD ≤ p.2) ∧
    List.Perm (sortDesc (grams.filter freqPred)) (grams.filter freqPred) ∧
    List.Pairwise (fun a b => b.2 ≤ a.2) (sortDesc (grams.filter freqPred)) ∧
    (∀ f : Int, (sortDesc (grams.filter freqPred)).filter (fun y => y.2 == f)
        = (grams.filter freqPred).filter (fun y => y.2 == f)) ∧
    (filter_and_rank grams n k).length = min k (grams.filter freqPred).length ∧
    (filter_and_rank grams n k).all (fun r => decide (FREQUENCY_THRESHOLD ≤ r.freq)) = true ∧
    topCountFor (ngram_type 1) = 30000 ∧
    topCountFor (ngram_type 2) = 10000 ∧ topCountFor (ngram_type 3) = 10000 ∧
    topCountFor (ngram_type 4) = 10000 ∧ topCountFor (ngram_type 5) = 10000 := by
  refine ⟨rfl, ?_, sortDesc_perm _, sortDesc_pairwise _, fun f => sortDesc_filter_key _ f,
    ?_, ?_, rfl, rfl, rfl, rfl, rfl⟩
  · intro p
    simp [List.mem_filter, freqPred]
  · simp only [filter_and_rank, List.length_map, List.length_take, (sortDesc_perm _).length_eq]
  · rw [List.all_eq_true]
    intro r hr
    simp only [filter_and_rank, List.mem_map] at hr
    rcases hr with ⟨p, hp, rfl⟩
    have hp2 : p ∈ sortDesc (grams.filter freqPred) := List.take_subset _ _ hp
    have hp3 : p ∈ grams.filter freqPred := (sortDesc_perm _).subset hp2
    simpa [freqPred] using List.of_mem_filter hp3

/-- C2 witness: the length equation at a concrete input. -/
theorem c2_witness :
    (filter_and_rank [("cat", 6000), ("dog", 10)] 1 1).length
      = min 1 ([("cat", 6000), ("dog", 10)].filter freqPred).length :=
  (c2_filter_and_rank [("cat", 6000), ("dog", 10)] 1 1).2.2.2.2.2.1

/-- C3. A raw stream line is silently discarded (parse yields none, never an
error) exactly when, after stripping, it has fewer than 3 tab-separated
fields, or its third field does not parse as an integer, or the gram's
space-split token count differs from the gram order, or is_clean_gram
rejects the tokens; an admitted line adds its parsed match count to the
shard map entry for its gram, created at 0 when absent, leaving every other
gram unchanged; and is_clean_gram holds iff the token list is non-empty and
every token is a non-empty all-ASCII-letter string, the meaning of the
anchored [a-zA-Z]+ regex. -/
theorem c3_line_admission (n : Nat) (agg : AggMap) (raw : String) :
    (parseStreamLine n raw = none ↔ discardLine n (pyStrip raw)) ∧
    (∀ g m, parseStreamLine n raw = some (g, m) →
        processStreamLine n agg raw = aggAdd agg g m ∧
        lookup0 (aggAdd agg g m) g = lookup0 agg g + m ∧
        (∀ g2, g2 ≠ g → lookup0 (aggAdd agg g m) g2 = lookup0 agg g2)) ∧
    (∀ tokens : List String, is_clean_gram tokens = true
        ↔ tokens ≠ [] ∧ ∀ t ∈ tokens, (t.data ≠ [] ∧ ∀ c ∈ t.data, isAsciiLetter c = true)) := by
  refine ⟨parseStreamLine_eq_none_iff n raw, ?_, is_clean_gram_iff⟩
  intro g m h
  refine ⟨processStreamLine_some n agg raw g m h, ?_, ?_⟩
  · rw [lookup0_aggAdd, if_pos rfl]
  · intro g2 hne
    rw [lookup0_aggAdd, if_neg hne, add_zero]

/-- C3 witness: a concrete admitted line updates the map as stated. -/
theorem c3_witness :
    processStreamLine 1 [] "cat\t1900\t6000\t1" = aggAdd [] "cat" 6000 ∧
    lookup0 (aggAdd [] "cat" 6000) "cat" = lookup0 [] "cat" + 6000 ∧
    (∀ g2, g2 ≠ "cat" → lookup0 (aggAdd [] "cat" 6000) g2 = lookup0 [] g2) :=
  (c3_line_admission 1 [] "cat\t1900\t6000\t1").2.1 "cat" 6000 (by decide)

/-- C4. A failed shard stream propagates nothing: process_shard is total and
returns the empty map on any failure outcome; a stream whose lines are all
discarded also yields the empty map, so the orchestrator cannot distinguish
the two — the per-shard step behaves identically for a failing fetch and a
fetch returning no valid grams, and the loop continues to the next shard. -/
theorem c4_failure_swallowed (e : Unit) (n : Nat) :
    process_shard (Except.error e) n = [] ∧
    (∀ lines : List String, (∀ raw ∈ lines, parseStreamLine n raw = none) →
        process_shard (Except.ok lines) n = []) ∧
    (∀ env1 env2 : Env, ∀ st : AggMap × List Event, ∀ url : String,
        env1.store = env2.store → env1.fetch url = Except.error () →
        env2.fetch url = Except.ok [] →
        processUrl env1 n st url = processUrl env2 n st url) := by
  refine ⟨rfl, ?_, ?_⟩
  · intro lines h
    exact foldl_discarded n lines [] h
  · intro env1 env2 st url hstore hf1 hf2
    simp only [processUrl, hstore, hf1, hf2]
    rfl

/-- C4 witness: a concrete failing fetch is indistinguishable from a fetch
returning an empty stream. -/
theorem c4_witness :
    processUrl envFail 1 ([], []) urlA
      = processUrl { store := envFail.store, fetch := fun _ => Except.ok [] } 1 ([], []) urlA :=
  (c4_failure_swallowed () 1).2.2 envFail
    { store := envFail.store, fetch := fun _ => Except.ok [] } ([], []) urlA rfl rfl rfl

/-- C5. When is_shard_done answers true for a shard, the per-shard step is
the identity: no fetch, no per-shard publish, no merge into the aggregate
and no checkpoint write happen (the state and trace are returned
unchanged); together with the catalog containing no duplicate URL, each
shard is merged into the type aggregate at most once per run. -/
theorem c5_skip_no_effects (env : Env) (n : Nat) (st : AggMap × List Event) (url : String)
    (h : is_shard_done (env.store (checkpointKey n (shardIdOf url))) = true) :
    processUrl env n st url = st ∧ (∀ m : Nat, (build_shard_urls m).Nodup) :=
  ⟨processUrl_skip env n st url h, build_shard_urls_nodup⟩

/-- C5 witness: a concrete checkpointed shard is skipped with no effects. -/
theorem c5_witness : processUrl envAllDone 1 ([], []) urlA = ([], []) :=
  (c5_skip_no_effects envAllDone 1 ([], []) urlA rfl).1

/-- C6. build_shard_urls is a pure function of the gram order: for order 1
it returns 26 URLs, one per lowercase letter in alphabetical order (letters
is the a-z list, strictly increasing); for every order at least 2 it
returns exactly 676 URLs, one per ordered pair of lowercase letters with
the outer loop on the first letter and the inner on the second; the URL
list has no duplicates for any order, the derived order-1 shard ids are
pairwise distinct, and the 676 two-letter shard keys are pairwise
distinct. -/
theorem c6_shard_catalog :
    (build_shard_urls 1).length = 26 ∧
    build_shard_urls 1 = letters.map (fun c => urlBase 1 ++ c.toString ++ ".gz") ∧
    List.Pairwise (· < ·) letters ∧
    ((build_shard_urls 1).map shardIdOf).Nodup ∧
    (∀ n : Nat, (build_shard_urls n).Nodup) ∧
    (∀ n : Nat, 2 ≤ n →
      (build_shard_urls n).length = 676 ∧
      build_shard_urls n
        = letters.flatMap (fun i => letters.map
            (fun j => urlBase n ++ i.toString ++ j.toString ++ ".gz"))) ∧
    (letters.flatMap (fun i => letters.map (fun j => i.toString ++ j.toString))).Nodup := by
  refine ⟨by decide, rfl, by decide, sid_one_nodup, build_shard_urls_nodup, ?_,
    key_pairs_nodup⟩
  intro n hn
  have h1 : ¬ n = 1 := by omega
  exact ⟨build_shard_urls_length_pairs n h1, by simp [build_shard_urls, if_neg h1]⟩

/-- C6 witness: the pair-order branch at order 2. -/
theorem c6_witness : (build_shard_urls 2).length = 676 :=
  (c6_shard_catalog.2.2.2.2.2.1 2 (by decide)).1

/-- C7. The consolidated words list is exactly order 1's ranked output, and
the consolidated phrases list is the concatenation of the order-2 through
order-5 ranked outputs in that order with no re-ranking; the consolidated
publish events carry exactly those lists. -/
theorem c7_consolidated (env : Env) :
    (runOrders env).words = orderTop env 1 ∧
    (runOrders env).phrases
      = orderTop env 2 ++ (orderTop env 3 ++ (orderTop env 4 ++ orderTop env 5)) ∧
    wordsEvents env
      = (if (orderTop env 1).isEmpty then []
         else [Event.publishWords (orderTop env 1)]) ∧
    phrasesEvents env
      = (if (orderTop env 2 ++ (orderTop env 3 ++ (orderTop env 4 ++ orderTop env 5))).isEmpty
         then []
         else [Event.publishPhrases
            (orderTop env 2 ++ (orderTop env 3 ++ (orderTop env 4 ++ orderTop env 5)))]) := by
  refine ⟨runOrders_words env, runOrders_phrases env, ?_, ?_⟩
  · rw [wordsEvents, runOrders_words]
  · rw [phrasesEvents, runOrders_phrases]

/-- C8, counterexample. The claim states that merged counts never decrease.
The merge itself only adds, but int() accepts negative match counts, so a
shard stream can produce a negative frequency and a merge step can lower a
gram's cumulative count, as at this concrete input. -/
theorem c8_counterexample :
    process_shard (Except.ok ["cat\t1900\t-5\t1"]) 1 = [("cat", -5)] ∧
    ¬ (∀ (t s : AggMap) (g : String), lookup0 t g ≤ lookup0 (mergeMaps t s) g) := by
  constructor
  · decide
  · intro h
    exact absurd (h [("cat", 10)] [("cat", -5)] "cat") (by decide)

/-- C8, amended. Merging only ever adds each shard frequency to the running
count, so whenever the merged shard's frequencies are all non-negative (as
with every well-formed corpus count), every gram's cumulative count is
monotonically non-decreasing across the merge. -/
theorem c8_amended (t s : AggMap) (g : String) (h : ∀ p ∈ s, 0 ≤ p.2) :
    lookup0 t g ≤ lookup0 (mergeMaps t s) g :=
  lookup0_mergeMaps_le s t g h

/-- C8 witness: a concrete non-negative merge does not decrease a count. -/
theorem c8_amended_witness :
    lookup0 [("cat", 10)] "cat" ≤ lookup0 (mergeMaps [("cat", 10)] [("dog", 3000)]) "cat" :=
  c8_amended [("cat", 10)] [("dog", 3000)] "cat" (by decide)

/-- C9, counterexample. The claim states the terminal sequence publishes the
consolidated artifacts before the job-complete marker. The code writes the
job-status marker first (source lines 248-257) and the consolidated
artifacts after it (source lines 259-268): at this concrete run the
consolidated words publish has a larger trace index than the marker. -/
theorem c9_counterexample :
    ¬ (∀ (env : Env),
        (∀ rs, Event.publishWords rs ∈ mainRun env →
          (mainRun env).indexOf (Event.publishWords rs)
            < (mainRun env).indexOf Event.markJobComplete) ∧
        (∀ rs, Event.publishPhrases rs ∈ mainRun env →
          (mainRun env).indexOf (Event.publishPhrases rs)
            < (mainRun env).indexOf Event.markJobComplete)) := by
  intro h
  have h1 := (h envC9).1 [⟨"cat", 6000⟩] (by rw [mainRun_envC9]; decide)
  rw [mainRun_envC9] at h1
  exact absurd h1 (by decide)

/-- C9, amended. In every run the job-complete marker is written after the
five gram orders but before the consolidated artifacts: the terminal
sequence is MARK_JOB_COMPLETE followed by PUBLISH_CONSOLIDATED, so every
consolidated publish event sits at a strictly larger trace index than the
marker. -/
theorem c9_amended (env : Env) :
    Event.markJobComplete ∈ mainRun env ∧
    (∀ rs, Event.publishWords rs ∈ mainRun env →
        (mainRun env).indexOf Event.markJobComplete
          < (mainRun env).indexOf (Event.publishWords rs)) ∧
    (∀ rs, Event.publishPhrases rs ∈ mainRun env →
        (mainRun env).indexOf Event.markJobComplete
          < (mainRun env).indexOf (Event.publishPhrases rs)) := by
  refine ⟨by simp [mainRun], ?_, ?_⟩
  · intro rs _
    exact words_indexOf_gt env rs
  · intro rs _
    exact phrases_indexOf_gt env rs

/-- C9 witness: the concrete run publishes words after the marker. -/
theorem c9_amended_witness :
    (mainRun envC9).indexOf Event.markJobComplete
      < (mainRun envC9).indexOf (Event.publishWords [⟨"cat", 6000⟩]) :=
  (c9_amended envC9).2.1 [⟨"cat", 6000⟩] (by rw [mainRun_envC9]; decide)

/-- C10. Every run publishes the per-type top artifact for each of the five
gram orders unconditionally, even when the ranked list is empty; the
consolidated artifacts are published only when non-empty: when order 1's
top list is empty no words artifact is ever published, when the
concatenated order 2-5 list is empty no phrases artifact is ever published,
and any published consolidated artifact carries a non-empty list. -/
theorem c10_publish_conditions (env : Env) :
    (∀ n : Nat, n = 1 ∨ n = 2 ∨ n = 3 ∨ n = 4 ∨ n = 5 →
        Event.publishTop n (orderTop env n) ∈ mainRun env) ∧
    (orderTop env 1 = [] → ∀ rs, Event.publishWords rs ∉ mainRun env) ∧
    (orderTop env 2 ++ (orderTop env 3 ++ (orderTop env 4 ++ orderTop env 5)) = [] →
        ∀ rs, Event.publishPhrases rs ∉ mainRun env) ∧
    (∀ rs, Event.publishWords rs ∈ mainRun env → rs ≠ []) ∧
    (∀ rs, Event.publishPhrases rs ∈ mainRun env → rs ≠ []) := by
  refine ⟨publishTop_mem_mainRun env, ?_, ?_, ?_, ?_⟩
  · intro h rs hmem
    rcases words_mem_cases env rs hmem with ⟨heq, hne⟩
    exact hne (by rw [runOrders_words, h])
  · intro h rs hmem
    rcases phrases_mem_cases env rs hmem with ⟨heq, hne⟩
    refine hne ?_
    rw [runOrders_phrases]
    exact h
  · intro rs hmem
    rcases words_mem_cases env rs hmem with ⟨heq, hne⟩
    exact fun hnil => hne (heq.trans hnil)
  · intro rs hmem
    rcases phrases_mem_cases env rs hmem with ⟨heq, hne⟩
    exact fun hnil => hne (heq.trans hnil)

/-- C10 witness: with every shard checkpointed done, the empty per-type top
artifact is still published while no consolidated words artifact is. -/
theorem c10_witness :
    Event.publishTop 1 (orderTop envAllDone 1) ∈ mainRun envAllDone ∧
    (∀ rs, Event.publishWords rs ∉ mainRun envAllDone) :=
  ⟨(c10_publish_conditions envAllDone).1 1 (Or.inl rfl),
   (c10_publish_conditions envAllDone).2.1 (orderTop_envAllDone 1)⟩

end Ngram
